import Mathlib

/-!
Shallow embedding of `src/backend/base/langflow/base/tools/component_tool.py`
(the component→tool adapter) and proofs about it.

The file embeds, faithfully to the Python source:
  * the data model (`Input`, `Output`, `Component`, `StructuredTool`),
  * `_get_input_type`, `build_description`, `_format_tool_name`,
  * `ComponentToolkit.get_tools` (as `get_tools`),
  * `_build_output_function`'s two wrappers (`sync_function`, `async_wrapper`),
    including the CPython `asyncio` semantics the wrapper relies on
    (`get_running_loop`, `run_until_complete` on a running loop, `asyncio.run`,
    and the `"loop" in locals()` guard of the `finally` block).

Python exceptions are modelled with `Except` over an explicit exception type;
machine-level details (threads, real scheduling) are modelled by the visible
effects the claims talk about: which tasks are cancelled by which code, and
which tasks remain pending after a call.
-/

/-- Exceptions that the embedded code can raise.  `valueError` carries the
message built in `get_tools`; `keyError` carries the missing dictionary key;
`attributeError` the missing attribute name; `runtimeError` the message of an
`asyncio` runtime failure; `userExn` stands for an arbitrary exception raised
inside a wrapped output method body (the tag distinguishes exception values). -/
inductive PyExn where
  | valueError (msg : String)
  | keyError (key : String)
  | attributeError (attr : String)
  | runtimeError (msg : String)
  | userExn (tag : String)
deriving DecidableEq, Repr

/-- An input declaration: name, field type, and the optional list of accepted
type names (`input_types`), mirroring `langflow.inputs.inputs.InputTypes` as
used by `component_tool.py`. -/
structure Input where
  name : String
  field_type : String
  input_types : List String
deriving DecidableEq, Repr

/-- An output declaration: name, optional bound-method name (`method` is
`str | None` in Python), and the list of required input names, mirroring
`langflow.io.Output` as used by `component_tool.py`. -/
structure Output where
  name : String
  method : Option String
  required_inputs : List String
deriving DecidableEq, Repr

/-- A component as seen by `component_tool.py`: display name, description, the
ordered input list (`component.inputs`), the ordered output list
(`component.outputs`), and the set of attribute names that resolve to bound
methods (what `getattr(component, ...)` can find). -/
structure Component where
  name : String
  description : String
  inputs : List Input
  outputs : List Output
  method_names : List String
deriving DecidableEq, Repr

/-- Modelled from the spec: `component._inputs` is built outside `src/` (in the
component system) as the "ordered mapping of input-name → Input" over the
component's declared inputs; `_inputs[n]` is name lookup in that mapping, and a
missing key is a `KeyError`.  We model the mapping by name lookup over
`component.inputs`. -/
def Component.lookupInput (c : Component) (n : String) : Option Input :=
  c.inputs.find? (fun i => i.name == n)

/-- Python truthiness test `not output.method`: true for `None` and `""`. -/
def methodFalsy : Option String → Bool
  | none => true
  | some s => s == ""

/-- Python `f"{output.method}"`: `None` renders as `"None"`. -/
def methodStr : Option String → String
  | none => "None"
  | some s => s

/-- Embedding of `_get_input_type`: one accepted type renders as itself,
several render joined by `" | "`, none falls back to the field type. -/
def _get_input_type (i : Input) : String :=
  match i.input_types with
  | [] => i.field_type
  | [t] => t
  | ts => String.intercalate " | " ts

/-- The list comprehension inside `build_description`:
`[f"{input_name}: {_get_input_type(component._inputs[input_name])}" for input_name in output.required_inputs]`.
It evaluates the lookups left to right, so the first missing name raises
`KeyError`. -/
def descriptionEntries (c : Component) : List String → Except PyExn (List String)
  | [] => .ok []
  | n :: ns =>
    match c.lookupInput n with
    | none => .error (.keyError n)
    | some i =>
      match descriptionEntries c ns with
      | .error e => .error e
      | .ok es => .ok ((n ++ ": " ++ _get_input_type i) :: es)

/-- Lexicographic comparison of character lists by code point, the order
Python uses to compare `str` values. -/
def listCharLe : List Char → List Char → Bool
  | [], _ => true
  | _ :: _, [] => false
  | a :: as, b :: bs =>
    if a < b then true
    else if b < a then false
    else listCharLe as bs

/-- Python's `<=` on strings: code-point lexicographic order. -/
def pyStrLe (a b : String) : Bool :=
  listCharLe a.data b.data

instance : IsTrans String (fun a b => pyStrLe a b = true) := by
  constructor
  have key : ∀ x y z : List Char,
      listCharLe x y = true → listCharLe y z = true → listCharLe x z = true := by
    intro x
    induction x with
    | nil => intro y z _ _; rfl
    | cons a as ih =>
      intro y z hxy hyz
      cases y with
      | nil => rw [listCharLe] at hxy; cases hxy
      | cons b bs =>
        cases z with
        | nil => rw [listCharLe] at hyz; cases hyz
        | cons c cs =>
          rcases lt_trichotomy a b with hab | hab | hab
          · rcases lt_trichotomy b c with hbc | hbc | hbc
            · rw [listCharLe, if_pos (lt_trans hab hbc)]
            · subst hbc; rw [listCharLe, if_pos hab]
            · rw [listCharLe, if_neg (lt_asymm hbc), if_pos hbc] at hyz; cases hyz
          · subst hab
            rw [listCharLe, if_neg (lt_irrefl a), if_neg (lt_irrefl a)] at hxy
            rcases lt_trichotomy a c with hac | hac | hac
            · rw [listCharLe, if_pos hac]
            · subst hac
              rw [listCharLe, if_neg (lt_irrefl a), if_neg (lt_irrefl a)] at hyz ⊢
              exact ih bs cs hxy hyz
            · rw [listCharLe, if_neg (lt_asymm hac), if_pos hac] at hyz; cases hyz
          · rw [listCharLe, if_neg (lt_asymm hab), if_pos hab] at hxy; cases hxy
  intro a b c
  exact key a.data b.data c.data

instance : IsTotal String (fun a b => pyStrLe a b = true) := by
  constructor
  have key : ∀ x y : List Char, listCharLe x y = true ∨ listCharLe y x = true := by
    intro x
    induction x with
    | nil => intro y; left; rfl
    | cons a as ih =>
      intro y
      cases y with
      | nil => right; rfl
      | cons b bs =>
        rcases lt_trichotomy a b with hab | hab | hab
        · left; rw [listCharLe, if_pos hab]
        · subst hab
          rcases ih bs with h | h
          · left; rw [listCharLe, if_neg (lt_irrefl a), if_neg (lt_irrefl a)]; exact h
          · right; rw [listCharLe, if_neg (lt_irrefl a), if_neg (lt_irrefl a)]; exact h
        · right; rw [listCharLe, if_pos hab]
  intro a b
  exact key a.data b.data

instance : IsAntisymm String (fun a b => pyStrLe a b = true) := by
  constructor
  have key : ∀ x y : List Char, listCharLe x y = true → listCharLe y x = true → x = y := by
    intro x
    induction x with
    | nil =>
      intro y _ hyx
      cases y with
      | nil => rfl
      | cons b bs => rw [listCharLe] at hyx; cases hyx
    | cons a as ih =>
      intro y hxy hyx
      cases y with
      | nil => rw [listCharLe] at hxy; cases hxy
      | cons b bs =>
        rcases lt_trichotomy a b with hab | hab | hab
        · rw [listCharLe, if_neg (lt_asymm hab), if_pos hab] at hyx; cases hyx
        · subst hab
          rw [listCharLe, if_neg (lt_irrefl a), if_neg (lt_irrefl a)] at hxy hyx
          rw [ih bs hxy hyx]
        · rw [listCharLe, if_neg (lt_asymm hab), if_pos hab] at hxy; cases hxy
  intro a b h1 h2
  exact String.ext_iff.mpr (key a.data b.data h1 h2)

/-- Python's `sorted` on a list of strings: a stable sort in ascending
code-point lexicographic order, which is `List.insertionSort` under
`pyStrLe`. -/
def sortedStrings (l : List String) : List String :=
  List.insertionSort (fun a b => pyStrLe a b = true) l

/-- Embedding of `build_description`: with required inputs, the rendered
`"name: type"` entries are sorted and joined by `", "`; without, the argument
list is empty (the source also logs a warning, which carries no data flow).
The result is `f"{output.method}({args}) - {component.description}"`. -/
def build_description (c : Component) (o : Output) : Except PyExn String :=
  if o.required_inputs.isEmpty then
    .ok (methodStr o.method ++ "() - " ++ c.description)
  else
    match descriptionEntries c o.required_inputs with
    | .error e => .error e
    | .ok es =>
      .ok (methodStr o.method ++ "(" ++ String.intercalate ", " (sortedStrings es)
            ++ ") - " ++ c.description)

/-- Characters kept unchanged by `_format_tool_name`'s regex class
`[a-zA-Z0-9_-]`. -/
def isAllowedChar (ch : Char) : Bool :=
  (('a' ≤ ch && ch ≤ 'z') || ('A' ≤ ch && ch ≤ 'Z') || ('0' ≤ ch && ch ≤ '9')
    || ch == '_' || ch == '-')

/-- Embedding of `_format_tool_name`:
`re.sub(r"[^a-zA-Z0-9_-]", "-", name)` replaces every character outside the
class with a hyphen, one character at a time. -/
def _format_tool_name (name : String) : String :=
  String.mk (name.toList.map (fun ch => if isAllowedChar ch then ch else '-'))

/-- Modelled from the spec: the sentinel name `TOOL_OUTPUT_NAME` comes from
`langflow.base.tools.constants`, which is not under `src/`; the spec calls it
the designated "this output itself emits tools" output, always excluded from
tool generation.  Its concrete value never matters to the claims, only
equality with `output.name`. -/
def TOOL_OUTPUT_NAME : String := "component_as_tool"

/-- Modelled from the spec: `create_input_schema` lives in `langflow.io.schema`
(not under `src/`) and is the external SchemaResolver collaborator; the spec
says this core "only selects which inputs (required subset, or all) feed the
resolver" and the schema is opaque.  We model the opaque schema by the ordered
input list fed to the resolver. -/
def create_input_schema (inputs : List Input) : List Input :=
  inputs

/-- The produced tool descriptor, mirroring the `StructuredTool(...)` call in
`get_tools`: normalized name, description, argument schema, and the wrapped
method (identified by its attribute name, which is what `getattr` received). -/
structure StructuredTool where
  name : String
  description : String
  func_method : String
  args_schema : List Input
deriving DecidableEq, Repr

/-- The list comprehension
`[self.component._inputs[input_name] for input_name in output.required_inputs]`
in `get_tools`: lookups run left to right, the first missing name raises
`KeyError`. -/
def lookupInputs (c : Component) : List String → Except PyExn (List Input)
  | [] => .ok []
  | n :: ns =>
    match c.lookupInput n with
    | none => .error (.keyError n)
    | some i =>
      match lookupInputs c ns with
      | .error e => .error e
      | .ok is2 => .ok (i :: is2)

/-- One iteration of the `get_tools` loop body for a non-sentinel output, in
source order: the `not output.method` check raising `ValueError`; the
`getattr(self.component, output.method)` lookup raising `AttributeError`; the
argument-schema branch (`required_inputs` subset when truthy, the whole
`component.inputs` otherwise); then the `StructuredTool` construction, whose
`description=build_description(...)` argument is evaluated at that point. -/
def buildTool (c : Component) (o : Output) : Except PyExn StructuredTool :=
  if methodFalsy o.method then
    .error (.valueError ("Output " ++ o.name ++ " does not have a method defined"))
  else
    let m := methodStr o.method
    if c.method_names.contains m then
      match (if o.required_inputs.isEmpty then .ok c.inputs else lookupInputs c o.required_inputs :
              Except PyExn (List Input)) with
      | .error e => .error e
      | .ok sel =>
        match build_description c o with
        | .error e => .error e
        | .ok desc =>
          .ok { name := _format_tool_name (c.name ++ "." ++ m)
                description := desc
                func_method := m
                args_schema := create_input_schema sel }
    else
      .error (.attributeError m)

/-- The `for output in self.component.outputs` loop of `get_tools`: sentinel
outputs are skipped with `continue`; any exception from the loop body
propagates, discarding the tools accumulated so far. -/
def get_toolsAux (c : Component) : List Output → Except PyExn (List StructuredTool)
  | [] => .ok []
  | o :: rest =>
    if o.name == TOOL_OUTPUT_NAME then
      get_toolsAux c rest
    else
      match buildTool c o with
      | .error e => .error e
      | .ok t =>
        match get_toolsAux c rest with
        | .error e => .error e
        | .ok ts => .ok (t :: ts)

/-- Embedding of `ComponentToolkit.get_tools`. -/
def get_tools (c : Component) : Except PyExn (List StructuredTool) :=
  get_toolsAux c c.outputs

/-!  The invocation adapter `_build_output_function` and its two wrappers. -/

/-- The component's live argument state written by `component.set(**kwargs)`.
Modelled from the spec: `set` belongs to the component system outside `src/`;
the spec says invoking a tool "always first writes kwargs into the component's
live argument state (a side effect visible to the method being invoked)". -/
structure ArgState where
  vals : List (String × Int)
deriving DecidableEq, Repr

/-- Setting one argument: overwrite an existing entry or append. -/
def setArg (st : ArgState) (k : String) (v : Int) : ArgState :=
  if st.vals.any (fun p => p.1 == k) then
    ⟨st.vals.map (fun p => if p.1 == k then (k, v) else p)⟩
  else
    ⟨st.vals ++ [(k, v)]⟩

/-- Modelled from the spec: `component.set(**kwargs)` writes every keyword
argument into the live argument state. -/
def setArgs (st : ArgState) (kwargs : List (String × Int)) : ArgState :=
  kwargs.foldl (fun s p => setArg s p.1 p.2) st

/-- A synchronous output method body: reads the component's argument state and
returns a value or raises. -/
structure SyncMethod (α : Type) where
  run : ArgState → Except PyExn α

/-- An asynchronous output method body: awaiting the coroutine from some event
loop reads the argument state and yields a value or raises; `spawned` lists the
fire-and-forget tasks the body scheduled on the driving loop that are still
unfinished when the coroutine itself completes. -/
structure AsyncMethod (α : Type) where
  run : ArgState → Except PyExn α × List String

/-- The observable outcome of one wrapper invocation: the returned value or
raised exception, whether the method body actually executed, which tasks the
wrapper's own `finally` block cancelled, which tasks `asyncio.run`'s teardown
cancelled, and which tasks are still pending on any event loop afterwards. -/
structure InvokeResult (α : Type) where
  outcome : Except PyExn α
  methodRan : Bool
  finallyCancelled : List String
  runShutdownCancelled : List String
  pendingAfter : List String
deriving Repr

/-- The ambient asyncio context of the caller: `none` when no event loop is
running in the calling thread; `some tasks` when one is running, with `tasks`
the scheduled-but-unfinished tasks currently on that loop. -/
def LoopCtx : Type := Option (List String)

/-- Embedding of the `sync_function` wrapper of `_build_output_function`:
`component.set(**kwargs)` then `return output_method()`; any exception from the
body propagates unchanged.  A synchronous call touches no event loop, so no
task is cancelled and the ambient loop's tasks stay pending. -/
def sync_function (m : SyncMethod α) (ctx : LoopCtx) (kwargs : List (String × Int))
    (st : ArgState) : ArgState × InvokeResult α :=
  let st2 := setArgs st kwargs
  (st2,
    { outcome := m.run st2
      methodRan := true
      finallyCancelled := []
      runShutdownCancelled := []
      pendingAfter := ctx.getD [] })

/-- Embedding of the `async_wrapper` of `_build_output_function`, following the
source and CPython `asyncio` semantics step by step.

With a running loop in the calling thread: `asyncio.get_running_loop()` returns
it and binds `loop`; `loop.run_until_complete(...)` raises
`RuntimeError("This event loop is already running")` before scheduling the
coroutine; the `except RuntimeError` branch calls `asyncio.run(...)`, which
raises `RuntimeError("asyncio.run() cannot be called from a running event
loop")`; the `finally` block sees `"loop" in locals()` and cancels every task
of `asyncio.all_tasks(loop)` — the ambient loop's tasks.  The method body never
runs.

With no running loop: `asyncio.get_running_loop()` raises, leaving `loop`
unbound; `asyncio.run(...)` creates a transient loop, drives the coroutine to
completion (value or exception propagated unchanged), then at teardown cancels
the remaining tasks of that loop and closes it; the `finally` block sees
`"loop" not in locals()` and computes `pending = set()`, cancelling nothing. -/
def async_wrapper (m : AsyncMethod α) (ctx : LoopCtx) (kwargs : List (String × Int))
    (st : ArgState) : ArgState × InvokeResult α :=
  let st2 := setArgs st kwargs
  match ctx with
  | some ambientTasks =>
    (st2,
      { outcome := .error (.runtimeError "asyncio.run() cannot be called from a running event loop")
        methodRan := false
        finallyCancelled := ambientTasks
        runShutdownCancelled := []
        pendingAfter := [] })
  | none =>
    let r := m.run st2
    (st2,
      { outcome := r.1
        methodRan := true
        finallyCancelled := []
        runShutdownCancelled := r.2
        pendingAfter := [] })

/-- A bound output method as dispatched by `_build_output_function`: the
sync/async split is decided once, at construction time, by
`is_async_callable`. -/
inductive BoundMethod (α : Type) where
  | sync (m : SyncMethod α)
  | async (m : AsyncMethod α)

/-- Embedding of `is_async_callable` restricted to bound methods: the
capability check reports whether the callable's invocation protocol is
asynchronous. -/
def is_async_callable : BoundMethod α → Bool
  | .sync _ => false
  | .async _ => true

/-- Embedding of `_build_output_function`: branch once on the capability check
and return the matching wrapper. -/
def _build_output_function (m : BoundMethod α) : LoopCtx → List (String × Int) → ArgState →
    ArgState × InvokeResult α :=
  match m with
  | .sync f => sync_function f
  | .async f => async_wrapper f

/-- The non-sentinel outputs of a component, in declaration order: exactly the
outputs the `get_tools` loop does not `continue` past. -/
def nonSentinelOutputs (c : Component) : List Output :=
  c.outputs.filter (fun o => o.name != TOOL_OUTPUT_NAME)

instance : Inhabited Input := ⟨⟨"", "", []⟩⟩

/-!  Concrete fixtures used by witnesses and counterexamples. -/

/-- An async method body that returns 42 and spawns nothing. -/
def m42 : AsyncMethod Int := ⟨fun _ => (.ok 42, [])⟩

/-- An async method body that returns 7 after scheduling a fire-and-forget
task `"bg-task"` that is still unfinished when the body completes. -/
def mBg : AsyncMethod Int := ⟨fun _ => (.ok 7, ["bg-task"])⟩

/-- A sync method body that raises. -/
def msBoom : SyncMethod Int := ⟨fun _ => .error (.userExn "boom")⟩

/-- An async method body that raises. -/
def maBoom : AsyncMethod Int := ⟨fun _ => (.error (.userExn "boom"), [])⟩

/-- A single integer input named `x`. -/
def inpX : Input := ⟨"x", "int", []⟩

/-- The sentinel tool-emitting output. -/
def sentinelOut : Output := ⟨TOOL_OUTPUT_NAME, some "to_toolkit", []⟩

/-- A well-formed output bound to method `run`, requiring input `x`. -/
def outW : Output := ⟨"out", some "run", ["x"]⟩

/-- A component with two outputs, one of which is the sentinel. -/
def compW : Component :=
  ⟨"Comp", "does things", [inpX], [sentinelOut, outW], ["run", "to_toolkit"]⟩

/-- The tool `get_tools` builds for `compW`'s only non-sentinel output. -/
def toolW : StructuredTool := ⟨"Comp-run", "run(x: int) - does things", "run", [inpX]⟩

/-- An output whose `method` is `None`. -/
def outNone : Output := ⟨"broken", none, []⟩

/-- A component whose second output has no bound method. -/
def compBad : Component := ⟨"Bad", "d", [inpX], [outW, outNone], ["run"]⟩

/-- An output requiring an input name absent from the component's inputs. -/
def outGhost : Output := ⟨"out", some "run", ["ghost"]⟩

/-- A component whose only output requires the missing input `ghost`. -/
def compGhost : Component := ⟨"G", "d", [inpX], [outGhost], ["run"]⟩

/-- A string input named `x0`: together with `x` it exhibits the sorting
divergence, since `'0' < ':'` makes `"x0: str"` sort before `"x: int"` while
the name `"x"` sorts before the name `"x0"`. -/
def inpX0 : Input := ⟨"x0", "str", []⟩

/-- The output used in the description-sorting counterexample. -/
def outC6 : Output := ⟨"out", some "method", ["x", "x0"]⟩

/-- The component used in the description-sorting counterexample. -/
def compC6 : Component := ⟨"C6", "c6 desc", [inpX, inpX0], [outC6], ["method"]⟩

/-- An integer input named `a`. -/
def inpA : Input := ⟨"a", "int", []⟩

/-- A string input named `b`. -/
def inpB : Input := ⟨"b", "str", []⟩

/-- A component carrying inputs `a` and `b` for the spec's description
example. -/
def compAB : Component := ⟨"AB", "c6 desc", [inpA, inpB], [], ["method"]⟩

/-- The spec's example output with required inputs in order `a`, `b`. -/
def oAB : Output := ⟨"out", some "method", ["a", "b"]⟩

/-- The same output with the required inputs declared in the other order. -/
def oBA : Output := ⟨"out", some "method", ["b", "a"]⟩

/-!  Helper lemmas. -/

/-- The character written by the normalizer is always in the allowed class. -/
theorem isAllowedChar_norm (ch : Char) :
    isAllowedChar (if isAllowedChar ch then ch else '-') = true := by
  cases h : isAllowedChar ch with
  | true => simp [h]
  | false => simp [h]; decide

/-- Unfolding `_format_tool_name` to its character list. -/
theorem format_tool_name_toList (s : String) :
    (_format_tool_name s).toList
      = s.toList.map (fun ch => if isAllowedChar ch then ch else '-') := rfl

/-!  Claims C7 and C8: name normalization. -/

/-- C7: name normalization is a total function (it is a Lean `def` on all of
`String`) that replaces every character outside `[A-Za-z0-9_-]` with a hyphen;
hence for every non-empty input the result is non-empty and consists only of
characters in the class, i.e. it matches `^[A-Za-z0-9_-]+$`. -/
theorem format_tool_name_legal (s : String) (h : s ≠ "") :
    _format_tool_name s ≠ ""
      ∧ ∀ ch ∈ (_format_tool_name s).toList, isAllowedChar ch = true := by
  constructor
  · intro hc
    apply h
    have hdata : (_format_tool_name s).data = ("" : String).data := congrArg String.data hc
    have hnil : s.data.map (fun ch => if isAllowedChar ch then ch else '-') = [] := hdata
    have : s.data = [] := List.map_eq_nil_iff.mp hnil
    cases s with
    | mk d => simpa [String.ext_iff] using this
  · intro ch hch
    rw [format_tool_name_toList] at hch
    obtain ⟨c0, _, hc0⟩ := List.mem_map.mp hch
    rw [← hc0]
    exact isAllowedChar_norm c0

/-- Witness for C7 at the concrete name `"My Tool!"`. -/
theorem format_tool_name_legal_witness :
    ("My Tool!" : String) ≠ ""
      ∧ (_format_tool_name "My Tool!" ≠ ""
          ∧ ∀ ch ∈ (_format_tool_name "My Tool!").toList, isAllowedChar ch = true) :=
  ⟨by decide, format_tool_name_legal "My Tool!" (by decide)⟩

/-- C8: name normalization is idempotent: normalizing an already-normalized
string changes nothing, because every character the normalizer writes is in the
allowed class and allowed characters are kept verbatim. -/
theorem format_tool_name_idempotent (s : String) :
    _format_tool_name (_format_tool_name s) = _format_tool_name s := by
  have hchar : ∀ c0 : Char,
      (if isAllowedChar (if isAllowedChar c0 then c0 else '-')
        then (if isAllowedChar c0 then c0 else '-') else '-')
        = (if isAllowedChar c0 then c0 else '-') := by
    intro c0
    rw [isAllowedChar_norm c0]
    simp
  show String.mk _ = String.mk _
  rw [format_tool_name_toList, List.map_map]
  exact congrArg String.mk (List.map_congr_left (fun c0 _ => hchar c0))

/-!  Claim C1: the synchronous adapter over an async method. -/

/-- C1 is false of the code (code bug): invoked while an event loop is running
in the calling thread, the wrapper does not drive the coroutine on that loop —
`loop.run_until_complete` raises `RuntimeError` on a running loop, the `except`
branch's `asyncio.run` then also raises, so the call fails instead of returning
the value of awaiting the method (here 42); the method body never runs.  With
no running loop the wrapper does return the awaited value. -/
theorem async_wrapper_running_loop_bug :
    ((async_wrapper m42 (some []) [] ⟨[]⟩).2).outcome
        = .error (.runtimeError "asyncio.run() cannot be called from a running event loop")
      ∧ ((async_wrapper m42 (some []) [] ⟨[]⟩).2).methodRan = false
      ∧ (m42.run (setArgs ⟨[]⟩ [])).1 = .ok 42
      ∧ ((async_wrapper m42 none [] ⟨[]⟩).2).outcome = .ok 42 :=
  ⟨rfl, rfl, rfl, rfl⟩

/-!  Claim C2: cleanup of pending tasks at the end of an async invocation. -/

/-- C2 counterexample: on the no-running-loop path — the only path on which
the method body executes — the wrapper's `finally` clause cancels nothing, even
though the method left the unfinished task `"bg-task"` scheduled on the event
loop the wrapper used: `"loop" in locals()` is false there, so
`pending = set()`.  The task is cancelled by `asyncio.run`'s teardown instead,
not by the wrapper's enumerate-and-cancel step that the claim describes. -/
theorem async_cleanup_finally_counterexample :
    ((async_wrapper mBg none [] ⟨[]⟩).2).outcome = .ok 7
      ∧ (mBg.run (setArgs ⟨[]⟩ [])).2 = ["bg-task"]
      ∧ ((async_wrapper mBg none [] ⟨[]⟩).2).finallyCancelled = []
      ∧ ((async_wrapper mBg none [] ⟨[]⟩).2).runShutdownCancelled = ["bg-task"] :=
  ⟨rfl, rfl, rfl, rfl⟩

/-- C2 amended: the wrapper's own `finally` clause enumerates and cancels tasks
only when an ambient loop was running (and then it cancels all of that loop's
unfinished tasks, while the method body never ran); on the no-running-loop path
the `finally` clause cancels nothing and it is `asyncio.run`'s teardown that
cancels the tasks the method left unfinished.  On both paths, no task spawned
inside the method remains pending after the call. -/
theorem async_cleanup_amended (amb : List String) (m : AsyncMethod α)
    (kwargs : List (String × Int)) (st : ArgState) :
    (((async_wrapper m (some amb) kwargs st).2).finallyCancelled = amb
        ∧ ((async_wrapper m (some amb) kwargs st).2).methodRan = false
        ∧ ((async_wrapper m (some amb) kwargs st).2).pendingAfter = [])
      ∧ (((async_wrapper m none kwargs st).2).finallyCancelled = []
        ∧ ((async_wrapper m none kwargs st).2).runShutdownCancelled
            = (m.run (setArgs st kwargs)).2
        ∧ ((async_wrapper m none kwargs st).2).pendingAfter = []) :=
  ⟨⟨rfl, rfl, rfl⟩, ⟨rfl, rfl, rfl⟩⟩

/-!  Claim C9: exceptions from the method body propagate unchanged. -/

/-- C9: an exception raised inside a wrapped output method body propagates out
of the invocation wrapper unchanged, for a synchronous method in any calling
context and for an asynchronous method in the context where its body actually
runs (no ambient loop); with an ambient loop the async body never executes, so
no body exception arises there. -/
theorem method_exception_propagates (ctx : LoopCtx) (amb : List String)
    (kwargs : List (String × Int)) (st : ArgState)
    (ms : SyncMethod α) (ma : AsyncMethod α) (e e2 : PyExn)
    (hs : ms.run (setArgs st kwargs) = .error e)
    (ha : (ma.run (setArgs st kwargs)).1 = .error e2) :
    ((_build_output_function (.sync ms) ctx kwargs st).2).outcome = .error e
      ∧ ((_build_output_function (.async ma) none kwargs st).2).outcome = .error e2
      ∧ ((_build_output_function (.async ma) (some amb) kwargs st).2).methodRan = false := by
  refine ⟨?_, ?_, rfl⟩
  · simpa [_build_output_function, sync_function] using hs
  · simpa [_build_output_function, async_wrapper] using ha

/-- Witness for C9 at concrete raising methods. -/
theorem method_exception_propagates_witness :
    (msBoom.run (setArgs ⟨[]⟩ []) = .error (.userExn "boom")
        ∧ (maBoom.run (setArgs ⟨[]⟩ [])).1 = .error (.userExn "boom"))
      ∧ (((_build_output_function (.sync msBoom) none [] ⟨[]⟩).2).outcome
            = .error (.userExn "boom")
        ∧ ((_build_output_function (.async maBoom) none [] ⟨[]⟩).2).outcome
            = .error (.userExn "boom")
        ∧ ((_build_output_function (.async maBoom) (some []) [] ⟨[]⟩).2).methodRan = false) :=
  ⟨⟨rfl, rfl⟩,
    method_exception_propagates none [] [] ⟨[]⟩ msBoom maBoom
      (.userExn "boom") (.userExn "boom") rfl rfl⟩

/-!  Helper lemmas about the `get_tools` loop. -/

/-- A `Forall₂` relation lets every left element pick a related right
element. -/
theorem forall2_exists_right {α β : Type} {R : α → β → Prop} :
    ∀ {l1 : List α} {l2 : List β}, List.Forall₂ R l1 l2 → ∀ x ∈ l1, ∃ y ∈ l2, R x y := by
  intro l1 l2 h
  induction h with
  | nil => intro x hx; cases hx
  | cons hr _ ih =>
    intro x hx
    cases hx with
    | head => exact ⟨_, List.mem_cons_self .., hr⟩
    | tail _ hx2 =>
      obtain ⟨y, hy, hxy⟩ := ih x hx2
      exact ⟨y, List.mem_cons_of_mem _ hy, hxy⟩

/-- A successful `get_tools` loop pairs each non-sentinel output, in order,
with the tool its loop body builds. -/
theorem get_toolsAux_forall2 (c : Component) (os : List Output) :
    ∀ ts, get_toolsAux c os = .ok ts →
      List.Forall₂ (fun o t => buildTool c o = .ok t)
        (os.filter (fun o => o.name != TOOL_OUTPUT_NAME)) ts := by
  induction os with
  | nil =>
    intro ts h
    cases h
    simp
  | cons o rest ih =>
    intro ts h
    rw [get_toolsAux] at h
    cases hs : (o.name == TOOL_OUTPUT_NAME) with
    | true =>
      rw [hs] at h
      simp only [if_pos rfl] at h
      have hbne : (o.name != TOOL_OUTPUT_NAME) = false := by simp [bne, hs]
      simpa [List.filter_cons, hbne] using ih ts h
    | false =>
      rw [hs] at h
      simp only [Bool.false_eq_true, if_neg] at h
      have hbne : (o.name != TOOL_OUTPUT_NAME) = true := by simp [bne, hs]
      cases hb : buildTool c o with
      | error e => rw [hb] at h; cases h
      | ok t =>
        rw [hb] at h
        cases hr : get_toolsAux c rest with
        | error e => rw [hr] at h; cases h
        | ok ts2 =>
          rw [hr] at h
          cases h
          have hcons : (o :: rest).filter (fun o2 => o2.name != TOOL_OUTPUT_NAME)
              = o :: rest.filter (fun o2 => o2.name != TOOL_OUTPUT_NAME) := by
            simp [List.filter_cons, hbne]
          rw [hcons]
          exact List.Forall₂.cons (a := o) (b := t) hb (ih ts2 hr)

/-- If some non-sentinel output's loop body fails, the whole `get_tools` call
fails: no list of tools is returned. -/
theorem buildTool_error_no_ok (c : Component) (o : Output)
    (hmem : o ∈ c.outputs) (hns : o.name ≠ TOOL_OUTPUT_NAME)
    (hbt : ∀ t, buildTool c o ≠ .ok t) :
    ∀ ts, get_tools c ≠ .ok ts := by
  intro ts h
  have hf := get_toolsAux_forall2 c c.outputs ts h
  have hmf : o ∈ c.outputs.filter (fun o2 => o2.name != TOOL_OUTPUT_NAME) := by
    rw [List.mem_filter]
    exact ⟨hmem, by simpa using hns⟩
  obtain ⟨t, _, hot⟩ := forall2_exists_right hf o hmf
  exact hbt t hot

/-- Counting: the non-sentinel outputs and the sentinel occurrences partition
the output list. -/
theorem length_filter_add_countP (os : List Output) :
    (os.filter (fun o => o.name != TOOL_OUTPUT_NAME)).length
        + os.countP (fun o => o.name == TOOL_OUTPUT_NAME) = os.length := by
  induction os with
  | nil => simp
  | cons o rest ih =>
    cases hs : (o.name == TOOL_OUTPUT_NAME) with
    | true =>
      have hbne : (o.name != TOOL_OUTPUT_NAME) = false := by simp [bne, hs]
      simp [List.filter_cons, List.countP_cons, hs, hbne, ← ih]
      omega
    | false =>
      have hbne : (o.name != TOOL_OUTPUT_NAME) = true := by simp [bne, hs]
      simp [List.filter_cons, List.countP_cons, hs, hbne, ← ih]
      omega

/-!  Claim C4: count and order of the produced tools. -/

/-- C4: when `get_tools` succeeds on a component whose outputs contain exactly
one sentinel, it returns exactly N−1 tool descriptors where N is the number of
outputs, and the descriptors pair up, in order, with the non-sentinel outputs
in their original declaration order (each being exactly the tool the loop body
builds for that output). -/
theorem get_tools_count_and_order (c : Component) (ts : List StructuredTool)
    (h : get_tools c = .ok ts)
    (hone : c.outputs.countP (fun o => o.name == TOOL_OUTPUT_NAME) = 1) :
    ts.length = c.outputs.length - 1
      ∧ List.Forall₂ (fun o t => buildTool c o = .ok t) (nonSentinelOutputs c) ts := by
  have hf := get_toolsAux_forall2 c c.outputs ts h
  refine ⟨?_, hf⟩
  have hlen : (c.outputs.filter (fun o => o.name != TOOL_OUTPUT_NAME)).length = ts.length :=
    List.Forall₂.length_eq hf
  have hsum := length_filter_add_countP c.outputs
  omega

/-- Witness for C4 at the two-output component `compW`. -/
theorem get_tools_count_and_order_witness :
    (get_tools compW = .ok [toolW]
        ∧ compW.outputs.countP (fun o => o.name == TOOL_OUTPUT_NAME) = 1)
      ∧ ([toolW].length = compW.outputs.length - 1
        ∧ List.Forall₂ (fun o t => buildTool compW o = .ok t) (nonSentinelOutputs compW) [toolW]) :=
  ⟨⟨rfl, by decide⟩, get_tools_count_and_order compW [toolW] rfl (by decide)⟩

/-!  Claim C5: schema selection. -/

/-- C5: for every non-sentinel output processed by a successful `get_tools`
call, the tool built for it gets its argument schema from exactly the output's
declared required-input subset (resolved through the component's input mapping)
when that declaration is non-empty, and from the component's entire input list
when the output declares no required inputs. -/
theorem get_tools_schema_selection (c : Component) (ts : List StructuredTool) (o : Output)
    (h : get_tools c = .ok ts) (hmem : o ∈ c.outputs) (hns : o.name ≠ TOOL_OUTPUT_NAME) :
    ∃ t ∈ ts,
      (o.required_inputs = [] → t.args_schema = create_input_schema c.inputs)
        ∧ (o.required_inputs ≠ [] →
            ∃ sel, lookupInputs c o.required_inputs = .ok sel
              ∧ t.args_schema = create_input_schema sel) := by
  have hf := get_toolsAux_forall2 c c.outputs ts h
  have hmf : o ∈ c.outputs.filter (fun o2 => o2.name != TOOL_OUTPUT_NAME) := by
    rw [List.mem_filter]
    exact ⟨hmem, by simpa using hns⟩
  obtain ⟨t, hts, hbt⟩ := forall2_exists_right hf o hmf
  rw [buildTool] at hbt
  split at hbt
  · cases hbt
  · by_cases hc : c.method_names.contains (methodStr o.method) = true
    · rw [if_pos hc] at hbt
      refine ⟨t, hts, ?_, ?_⟩
      · intro hreq
        rw [hreq] at hbt
        simp only [List.isEmpty_nil, if_pos] at hbt
        split at hbt
        · cases hbt
        · cases hbt
          rfl
      · intro hreq
        have hne : o.required_inputs.isEmpty = false := by
          cases hh : o.required_inputs with
          | nil => exact absurd hh hreq
          | cons a l => simp
        rw [hne] at hbt
        simp only [Bool.false_eq_true, if_false] at hbt
        split at hbt
        · cases hbt
        · rename_i sel hsel
          split at hbt
          · cases hbt
          · cases hbt
            exact ⟨sel, hsel, rfl⟩
    · rw [if_neg hc] at hbt
      cases hbt

/-- Witness for C5 at `compW` and its non-sentinel output `outW`. -/
theorem get_tools_schema_selection_witness :
    (get_tools compW = .ok [toolW] ∧ outW ∈ compW.outputs ∧ outW.name ≠ TOOL_OUTPUT_NAME)
      ∧ ∃ t ∈ [toolW],
          (outW.required_inputs = [] → t.args_schema = create_input_schema compW.inputs)
            ∧ (outW.required_inputs ≠ [] →
                ∃ sel, lookupInputs compW outW.required_inputs = .ok sel
                  ∧ t.args_schema = create_input_schema sel) :=
  ⟨⟨rfl, by decide, by decide⟩,
    get_tools_schema_selection compW [toolW] outW rfl (by decide) (by decide)⟩

/-!  Claim C3: a missing bound method aborts the whole call. -/

/-- When the output list contains a non-sentinel output without a bound method
and every non-sentinel output that does have one builds a tool successfully,
the loop stops at the first method-less output with its `ValueError`. -/
theorem get_toolsAux_first_value_error (c : Component) :
    ∀ os : List Output,
      (∃ o ∈ os, o.name ≠ TOOL_OUTPUT_NAME ∧ methodFalsy o.method = true) →
      (∀ o2 ∈ os, o2.name ≠ TOOL_OUTPUT_NAME → methodFalsy o2.method = false →
          ∃ t, buildTool c o2 = .ok t) →
      ∃ b, b ∈ os ∧ b.name ≠ TOOL_OUTPUT_NAME ∧ methodFalsy b.method = true
        ∧ get_toolsAux c os
            = .error (.valueError ("Output " ++ b.name ++ " does not have a method defined")) := by
  intro os
  induction os with
  | nil => rintro ⟨o, ho, _⟩ _; cases ho
  | cons o rest ih =>
    rintro ⟨w, hw, hwns, hwf⟩ hgood
    cases hs : (o.name == TOOL_OUTPUT_NAME) with
    | true =>
      have hname : o.name = TOOL_OUTPUT_NAME := by simpa using hs
      have hwrest : w ∈ rest := by
        cases hw with
        | head => exact absurd hname hwns
        | tail _ h2 => exact h2
      obtain ⟨b, hb, h1, h2, h3⟩ :=
        ih ⟨w, hwrest, hwns, hwf⟩ (fun o2 hh => hgood o2 (List.mem_cons_of_mem _ hh))
      refine ⟨b, List.mem_cons_of_mem _ hb, h1, h2, ?_⟩
      rw [get_toolsAux, hs]
      simpa using h3
    | false =>
      have hons : o.name ≠ TOOL_OUTPUT_NAME := by simpa using hs
      cases hmf : methodFalsy o.method with
      | true =>
        refine ⟨o, List.mem_cons_self .., hons, hmf, ?_⟩
        have hbt : buildTool c o
            = .error (.valueError ("Output " ++ o.name ++ " does not have a method defined")) := by
          rw [buildTool, if_pos hmf]
        rw [get_toolsAux, hs]
        simp only [Bool.false_eq_true, if_false, hbt]
      | false =>
        obtain ⟨t, ht⟩ := hgood o (List.mem_cons_self ..) hons hmf
        have hwrest : w ∈ rest := by
          cases hw with
          | head => rw [hmf] at hwf; cases hwf
          | tail _ h2 => exact h2
        obtain ⟨b, hb, h1, h2, h3⟩ :=
          ih ⟨w, hwrest, hwns, hwf⟩ (fun o2 hh => hgood o2 (List.mem_cons_of_mem _ hh))
        refine ⟨b, List.mem_cons_of_mem _ hb, h1, h2, ?_⟩
        rw [get_toolsAux, hs]
        simp only [Bool.false_eq_true, if_false, ht, h3]

/-- C3: whenever any non-sentinel output of the component has no bound method
(`method` falsy), `get_tools` never returns a list of descriptors — not even a
partial one — and, provided the other non-sentinel outputs are well formed, the
error is precisely the configuration `ValueError` naming a method-less
output. -/
theorem get_tools_missing_method_aborts (c : Component) (o : Output)
    (hmem : o ∈ c.outputs) (hns : o.name ≠ TOOL_OUTPUT_NAME)
    (hbad : methodFalsy o.method = true) :
    (∀ ts, get_tools c ≠ .ok ts)
      ∧ ((∀ o2 ∈ c.outputs, o2.name ≠ TOOL_OUTPUT_NAME → methodFalsy o2.method = false →
            ∃ t, buildTool c o2 = .ok t) →
          ∃ b, b ∈ c.outputs ∧ b.name ≠ TOOL_OUTPUT_NAME ∧ methodFalsy b.method = true
            ∧ get_tools c
                = .error (.valueError ("Output " ++ b.name ++ " does not have a method defined"))) := by
  constructor
  · apply buildTool_error_no_ok c o hmem hns
    intro t ht
    rw [buildTool, if_pos hbad] at ht
    cases ht
  · intro hgood
    simpa [get_tools] using get_toolsAux_first_value_error c c.outputs ⟨o, hmem, hns, hbad⟩ hgood

/-- Witness for C3 at `compBad`, whose output `broken` has no method. -/
theorem get_tools_missing_method_aborts_witness :
    (outNone ∈ compBad.outputs ∧ outNone.name ≠ TOOL_OUTPUT_NAME
        ∧ methodFalsy outNone.method = true)
      ∧ ((∀ ts, get_tools compBad ≠ .ok ts)
        ∧ get_tools compBad
            = .error (.valueError "Output broken does not have a method defined")) := by
  refine ⟨⟨by decide, by decide, rfl⟩, ?_⟩
  have h := get_tools_missing_method_aborts compBad outNone (by decide) (by decide) rfl
  exact ⟨h.1, rfl⟩

/-!  Claim C10: a required-input name absent from the input mapping. -/

/-- When some name in the list has no input, both left-to-right lookup loops
fail with the `KeyError` of the first missing name. -/
theorem lookups_first_keyerror (c : Component) :
    ∀ ns : List String, (∃ n ∈ ns, c.lookupInput n = none) →
      ∃ k, k ∈ ns ∧ c.lookupInput k = none
        ∧ lookupInputs c ns = .error (.keyError k)
        ∧ descriptionEntries c ns = .error (.keyError k) := by
  intro ns
  induction ns with
  | nil => rintro ⟨n, hn, _⟩; cases hn
  | cons m ms ih =>
    rintro ⟨n, hn, hnone⟩
    cases hm : c.lookupInput m with
    | none =>
      exact ⟨m, List.mem_cons_self .., hm, by rw [lookupInputs, hm],
        by rw [descriptionEntries, hm]⟩
    | some i =>
      have hnms : n ∈ ms := by
        cases hn with
        | head => rw [hm] at hnone; cases hnone
        | tail _ h2 => exact h2
      obtain ⟨k, hk, h1, h2, h3⟩ := ih ⟨n, hnms, hnone⟩
      refine ⟨k, List.mem_cons_of_mem _ hk, h1, ?_, ?_⟩
      · rw [lookupInputs, hm, h2]
      · rw [descriptionEntries, hm, h3]

/-- C10: if a non-sentinel output's required-inputs declaration names an input
absent from the component's input mapping, then description composition raises
`KeyError` for the first such missing name, the `get_tools` loop body for that
output raises the same `KeyError` (instead of skipping the name or falling back
to the full input set), and the whole `get_tools` call fails. -/
theorem missing_required_input_keyerror (c : Component) (o : Output) (n : String)
    (hmem : o ∈ c.outputs) (hns : o.name ≠ TOOL_OUTPUT_NAME)
    (hreq : n ∈ o.required_inputs) (hmiss : c.lookupInput n = none)
    (hmethod : methodFalsy o.method = false)
    (hattr : c.method_names.contains (methodStr o.method) = true) :
    (∃ k, k ∈ o.required_inputs ∧ c.lookupInput k = none
        ∧ build_description c o = .error (.keyError k)
        ∧ buildTool c o = .error (.keyError k))
      ∧ ∀ ts, get_tools c ≠ .ok ts := by
  obtain ⟨k, hk, h1, h2, h3⟩ := lookups_first_keyerror c o.required_inputs ⟨n, hreq, hmiss⟩
  have hne : o.required_inputs.isEmpty = false := by
    cases hh : o.required_inputs with
    | nil => rw [hh] at hreq; cases hreq
    | cons a l => simp
  have hbd : build_description c o = .error (.keyError k) := by
    rw [build_description, hne]
    simp only [Bool.false_eq_true, if_false]
    rw [h3]
  have hbt : buildTool c o = .error (.keyError k) := by
    rw [buildTool]
    rw [if_neg (by rw [hmethod]; exact Bool.false_ne_true)]
    rw [if_pos hattr, hne]
    simp only [Bool.false_eq_true, if_false]
    rw [h2]
  refine ⟨⟨k, hk, h1, hbd, hbt⟩, ?_⟩
  apply buildTool_error_no_ok c o hmem hns
  intro t ht
  rw [hbt] at ht
  cases ht

/-- Witness for C10 at `compGhost`, whose only output requires the missing
input name `ghost`. -/
theorem missing_required_input_keyerror_witness :
    (outGhost ∈ compGhost.outputs ∧ outGhost.name ≠ TOOL_OUTPUT_NAME
        ∧ "ghost" ∈ outGhost.required_inputs ∧ compGhost.lookupInput "ghost" = none
        ∧ methodFalsy outGhost.method = false
        ∧ compGhost.method_names.contains (methodStr outGhost.method) = true)
      ∧ ((∃ k, k ∈ outGhost.required_inputs ∧ compGhost.lookupInput k = none
          ∧ build_description compGhost outGhost = .error (.keyError k)
          ∧ buildTool compGhost outGhost = .error (.keyError k))
        ∧ ∀ ts, get_tools compGhost ≠ .ok ts) :=
  ⟨⟨by decide, by decide, by decide, rfl, rfl, rfl⟩,
    missing_required_input_keyerror compGhost outGhost "ghost"
      (by decide) (by decide) (by decide) rfl rfl rfl⟩

/-!  Claim C6: composition of the description string. -/

/-- Sorting is invariant under permutation of the input list: two permuted
lists have equal sorted forms, because both are sorted permutations of the same
multiset and the order is total, transitive and antisymmetric. -/
theorem sortedStrings_perm_eq {l1 l2 : List String} (h : l1.Perm l2) :
    sortedStrings l1 = sortedStrings l2 :=
  List.eq_of_perm_of_sorted
    ((List.perm_insertionSort _ l1).trans (h.trans (List.perm_insertionSort _ l2).symm))
    (List.sorted_insertionSort _ l1)
    (List.sorted_insertionSort _ l2)

/-- With every name resolvable, the description's entry loop renders each name
to `"name: type"`, in declaration order. -/
theorem descriptionEntries_ok (c : Component) :
    ∀ ns : List String, (∀ n ∈ ns, (c.lookupInput n).isSome) →
      descriptionEntries c ns
        = .ok (ns.map (fun n => n ++ ": " ++ _get_input_type ((c.lookupInput n).getD default))) := by
  intro ns
  induction ns with
  | nil => intro _; rfl
  | cons m ms ih =>
    intro hres
    have hm : (c.lookupInput m).isSome := hres m (List.mem_cons_self ..)
    cases hlm : c.lookupInput m with
    | none => rw [hlm] at hm; cases hm
    | some i =>
      rw [descriptionEntries, hlm, ih (fun n hn => hres n (List.mem_cons_of_mem _ hn))]
      simp [hlm]

/-- C6 counterexample: the code sorts the rendered `"name: type"` entries as
whole strings, not by input name.  With inputs `x : int` and `x0 : str` and
required inputs `["x", "x0"]`, the code produces `"method(x0: str, x: int) -
c6 desc"` because `'0' < ':'` puts `"x0: str"` before `"x: int"`, whereas
sorting alphabetically by input name (`"x" < "x0"`) would produce
`"method(x: int, x0: str) - c6 desc"`. -/
theorem build_description_sort_counterexample :
    build_description compC6 outC6 = .ok "method(x0: str, x: int) - c6 desc"
      ∧ ("method(x0: str, x: int) - c6 desc" : String)
          ≠ "method(x: int, x0: str) - c6 desc" := by
  exact ⟨rfl, by decide⟩

/-- C6 amended: the composed description is
`"<method>(<entries joined by , >) - <component description>"` where the
entries are the `"name: type"` renderings of the required inputs sorted
lexicographically as whole strings (code-point order); consequently the result
is independent of the declaration order of the required inputs (any permutation
of a fully resolvable required-input list yields the identical description);
type rendering follows `_get_input_type`. -/
theorem build_description_sorted_entries (c : Component) (o1 o2 : Output)
    (hm : o1.method = o2.method)
    (hp : o1.required_inputs.Perm o2.required_inputs)
    (hres : ∀ n ∈ o1.required_inputs, (c.lookupInput n).isSome) :
    build_description c o1 = build_description c o2
      ∧ (o1.required_inputs ≠ [] →
          build_description c o1
            = .ok (methodStr o1.method ++ "("
                ++ String.intercalate ", " (sortedStrings (o1.required_inputs.map
                    (fun n => n ++ ": " ++ _get_input_type ((c.lookupInput n).getD default))))
                ++ ") - " ++ c.description)) := by
  have hres2 : ∀ n ∈ o2.required_inputs, (c.lookupInput n).isSome := by
    intro n hn
    exact hres n (hp.mem_iff.mpr hn)
  have hfmt : ∀ o3 : Output, o3.required_inputs ≠ [] →
      (∀ n ∈ o3.required_inputs, (c.lookupInput n).isSome) →
      build_description c o3
        = .ok (methodStr o3.method ++ "("
            ++ String.intercalate ", " (sortedStrings (o3.required_inputs.map
                (fun n => n ++ ": " ++ _get_input_type ((c.lookupInput n).getD default))))
            ++ ") - " ++ c.description) := by
    intro o3 hne3 hres3
    have hb : o3.required_inputs.isEmpty = false := by
      cases hh : o3.required_inputs with
      | nil => exact absurd hh hne3
      | cons a l => simp
    rw [build_description, hb]
    simp only [Bool.false_eq_true, if_false]
    rw [descriptionEntries_ok c o3.required_inputs hres3]
  constructor
  · cases hh : o1.required_inputs with
    | nil =>
      have hh2 : o2.required_inputs = [] := by
        have := hp.symm
        rw [hh] at this
        exact List.Perm.eq_nil this
      rw [build_description, build_description, hh, hh2]
      simp [hm]
    | cons a l =>
      have hne1 : o1.required_inputs ≠ [] := by rw [hh]; exact List.cons_ne_nil a l
      have hne2 : o2.required_inputs ≠ [] := by
        intro hc
        rw [hc] at hp
        rw [List.Perm.eq_nil hp] at hh
        cases hh
      rw [hfmt o1 hne1 hres, hfmt o2 hne2 hres2, hm]
      have hperm : (o1.required_inputs.map
            (fun n => n ++ ": " ++ _get_input_type ((c.lookupInput n).getD default))).Perm
          (o2.required_inputs.map
            (fun n => n ++ ": " ++ _get_input_type ((c.lookupInput n).getD default))) :=
        hp.map _
      rw [sortedStrings_perm_eq hperm]
  · intro hne1
    exact hfmt o1 hne1 hres

/-- Witness for C6 at the spec's own example: inputs `a : int` and `b : str`,
required in declaration order `["b", "a"]` and `["a", "b"]`; both orders give
the identical description `"method(a: int, b: str) - c6 desc"`. -/
theorem build_description_sorted_entries_witness :
    (oBA.method = oAB.method ∧ oBA.required_inputs.Perm oAB.required_inputs
        ∧ ∀ n ∈ oBA.required_inputs, (compAB.lookupInput n).isSome)
      ∧ (build_description compAB oBA = build_description compAB oAB
        ∧ (oBA.required_inputs ≠ [] →
            build_description compAB oBA
              = .ok (methodStr oBA.method ++ "("
                  ++ String.intercalate ", " (sortedStrings (oBA.required_inputs.map
                      (fun n => n ++ ": " ++ _get_input_type ((compAB.lookupInput n).getD default))))
                  ++ ") - " ++ compAB.description)))
      ∧ build_description compAB oAB = .ok "method(a: int, b: str) - c6 desc" :=
  ⟨⟨rfl, by decide, by decide⟩,
    build_description_sorted_entries compAB oBA oAB rfl (by decide) (by decide),
    rfl⟩
